import Mathlib

/-!
Verification of the funes document-harvesting and OCR-enrichment pipeline.

Text is modelled as `List Char` (Python `str`); Python slices `s[a:b]`
become `(l.drop a).take (b - a)`.  Stateful scripts are modelled as pure
state-passing functions; external collaborators (the browser page, the HTTP
client, the JSON decoder, the generative backend) are parameters.
-/

namespace Funes

/-- Python `'\n\n'.join(...)` separator. -/
def sep2 : List Char := ['\n', '\n']

/-! ## `chunk_text` (scripts/process_ocr_deepseek.py, lines 174-186)

```python
def chunk_text(text, chunk_size=8000, overlap=500):
    chunks = []
    start = 0
    text_length = len(text)
    while start < text_length:
        end = min(start + chunk_size, text_length)
        chunk = text[start:end]
        chunks.append(chunk)
        if end == text_length:
            break
        start = end - overlap  # overlap for context
    return chunks
```

The while loop is modelled with fuel `text.length + 1`; whenever
`overlap < chunk_size` the loop advances `start` by at least one per
iteration, so this fuel is never exhausted. -/

def chunkGo (text : List Char) (chunk_size overlap : Nat) :
    Nat → Nat → List (List Char)
  | 0, _ => []
  | fuel + 1, start =>
    if start < text.length then
      let e := min (start + chunk_size) text.length
      let chunk := (text.drop start).take (e - start)
      if e = text.length then [chunk]
      else chunk :: chunkGo text chunk_size overlap fuel (e - overlap)
    else []

def chunk_text (text : List Char) (chunk_size : Nat := 8000)
    (overlap : Nat := 500) : List (List Char) :=
  chunkGo text chunk_size overlap (text.length + 1) 0

/-- Concatenation of the chunks after dropping `overlap` characters from
each of them. -/
def dropJoin (overlap : Nat) (l : List (List Char)) : List Char :=
  (l.map (List.drop overlap)).flatten

/-- First chunk followed by `chunks[i][overlap:]` for `i ≥ 1`. -/
def reassemble (overlap : Nat) : List (List Char) → List Char
  | [] => []
  | c :: rest => c ++ dropJoin overlap rest

/-! ## `determine_era_from_date` (scripts/process_ocr_deepseek.py, lines 111-138)

`re.search(r'19[7-9]\d|20[0-2]\d', date_str)` is modelled as a left-to-right
scan trying the two alternatives at each position (`\d` is taken as the
ASCII digits, the relevant case for this data).  `int(match.group())` is the
numeric value of the four matched characters. -/

/-- Numeric value of an ASCII digit character. -/
def digitVal (c : Char) : Nat := c.toNat - 48

/-- The regex alternation `19[7-9]\d|20[0-2]\d` tested at one position:
character classes by code point (`'7'` = 55, `'9'` = 57, `'0'` = 48,
`'2'` = 50, `\d` = 48..57), yielding `int` of the matched four characters. -/
def matchYear (a b c d : Char) : Option Nat :=
  if a = '1' ∧ b = '9' ∧ 55 ≤ c.toNat ∧ c.toNat ≤ 57 ∧ 48 ≤ d.toNat ∧ d.toNat ≤ 57 then
    some (1900 + 10 * digitVal c + digitVal d)
  else if a = '2' ∧ b = '0' ∧ 48 ≤ c.toNat ∧ c.toNat ≤ 50 ∧ 48 ≤ d.toNat ∧ d.toNat ≤ 57 then
    some (2000 + 10 * digitVal c + digitVal d)
  else none

/-- Search as `re.search`: leftmost position wins, alternatives tried in order. -/
def searchYear : List Char → Option Nat
  | a :: b :: c :: d :: rest =>
    match matchYear a b c d with
    | some y => some y
    | none => searchYear (b :: c :: d :: rest)
  | _ => none

/-- The decade ladder of lines 123-134. -/
def eraOf (year : Nat) : Option (List Char) :=
  if 1970 ≤ year ∧ year ≤ 1979 then some "1970s".toList
  else if 1980 ≤ year ∧ year ≤ 1989 then some "1980s".toList
  else if 1990 ≤ year ∧ year ≤ 1999 then some "1990s".toList
  else if 2000 ≤ year ∧ year ≤ 2009 then some "2000s".toList
  else if 2010 ≤ year ∧ year ≤ 2019 then some "2010s".toList
  else if 2020 ≤ year ∧ year ≤ 2029 then some "2020s".toList
  else none

def determine_era_from_date (date_str : List Char) : Option (List Char) :=
  if date_str = [] then none
  else
    match searchYear date_str with
    | some year => eraOf year
    | none => none

/-- The date string carries a match of `19[7-9]\d|20[0-2]\d` at position `i`. -/
def yearPatternAt (s : List Char) (i : Nat) : Prop :=
  ∃ a b c d rest, s.drop i = a :: b :: c :: d :: rest ∧ (matchYear a b c d).isSome

/-! ## Python string helpers -/

/-- Characters removed by Python `str.strip()` (ASCII whitespace). -/
def isSpaceCh (c : Char) : Bool :=
  c = ' ' || c = '\t' || c = '\n' || c = '\x0d' || c = Char.ofNat 11 || c = Char.ofNat 12

/-- Python `str.strip()`. -/
def pystrip (l : List Char) : List Char :=
  ((l.dropWhile isSpaceCh).reverse.dropWhile isSpaceCh).reverse

/-! ## `extract_text_from_pdf` (scripts/ocr_easyocr.py, lines 128-166)

The per-page extraction `extract_text_robust` is an external effect chain;
the function is modelled on its output `text_content`, the list of page
texts.  The document-level logic is:

```python
full_text = "\n\n".join(text_content)
if full_text.strip():
    non_empty_pages = sum(1 for text in text_content
                          if text.strip() and not text.startswith("[EASYOCR FAILED"))
    total_pages = len(text_content)
    if non_empty_pages > 0 and (non_empty_pages >= total_pages * 0.1
                                or len(full_text.strip()) >= 100):
        return full_text
    else:
        return full_text  # Still return it, just warn
else:
    return None
```

The float comparison `non_empty_pages >= total_pages * 0.1` is modelled as
`10 * non_empty_pages ≥ total_pages`; since both branches of the inner `if`
return `full_text`, no rounding discrepancy can affect the result. -/

def easyocrSentinel : List Char := "[EASYOCR FAILED".toList

/-- Count `sum(1 for text in text_content if text.strip() and not
text.startswith("[EASYOCR FAILED"))`. -/
def non_empty_pages (text_content : List (List Char)) : Nat :=
  text_content.countP fun t => !(pystrip t).isEmpty && !(easyocrSentinel.isPrefixOf t)

def extract_text_from_pdf (text_content : List (List Char)) : Option (List Char) :=
  let full_text := List.intercalate sep2 text_content
  if (pystrip full_text).isEmpty then none
  else
    if non_empty_pages text_content > 0 ∧
        (10 * non_empty_pages text_content ≥ text_content.length ∨
          (pystrip full_text).length ≥ 100) then
      some full_text
    else
      some full_text

/-- Variant `extract_text_from_pdf` of scripts/ocr_pdf.py, lines 123-151: no page
ratio / character-count threshold at all; the only rejection is empty text or
a whole-document sentinel at the very start. -/
def extract_text_from_pdf_tesseract (text_content : List (List Char)) :
    Option (List Char) :=
  let full_text := List.intercalate sep2 text_content
  if !(pystrip full_text).isEmpty && !("[OCR FAILED".toList.isPrefixOf full_text)
      && !("[OCR SETUP FAILED".toList.isPrefixOf full_text) then
    some full_text
  else none

/-! ## `backpropagate_completed_files` (scripts/ocr_easyocr.py, lines 209-234) -/

/-- One entry of the OCR progress ledger (the `file_path`/`timestamp`
strings, which only record environment paths, are elided). -/
structure OcrEntry where
  status : List Char
  error : Option (List Char)
deriving DecidableEq, Repr

/-- An output `.txt` file as the backfill pass sees it: the name of the PDF
it corresponds to (`txt_file.replace('.txt', '.pdf')`) and its content, or
`none` when reading raised (the `except: continue` path). -/
structure TxtFile where
  pdfName : List Char
  content : Option (List Char)
deriving DecidableEq, Repr

/-- Python dict assignment on an insertion-ordered association list. -/
def setKey : List (List Char × OcrEntry) → List Char → OcrEntry →
    List (List Char × OcrEntry)
  | [], k, v => [(k, v)]
  | (k', v') :: rest, k, v =>
    if k' = k then (k, v) :: rest else (k', v') :: setKey rest k v

/-- Python dict lookup. -/
def getKey : List (List Char × OcrEntry) → List Char → Option OcrEntry
  | [], _ => none
  | (k', v) :: rest, k => if k' = k then some v else getKey rest k

def completedStatus : List Char := "completed".toList

def completedEntry : OcrEntry := ⟨completedStatus, none⟩

/-- Test `pdf_filename not in progress or progress[pdf_filename]["status"] !=
"completed"`. -/
def notCompletedAt (progress : List (List Char × OcrEntry)) (k : List Char) :
    Bool :=
  match getKey progress k with
  | none => true
  | some e => decide (¬ e.status = completedStatus)

/-- Loop body of `backpropagate_completed_files` for one `.txt` file. -/
def backfillStep (progress : List (List Char × OcrEntry)) (f : TxtFile) :
    List (List Char × OcrEntry) :=
  match f.content with
  | none => progress
  | some content =>
    if !(pystrip content).isEmpty && notCompletedAt progress f.pdfName then
      setKey progress f.pdfName completedEntry
    else progress

def backpropagate_completed_files (txt_files : List TxtFile)
    (progress : List (List Char × OcrEntry)) : List (List Char × OcrEntry) :=
  txt_files.foldl backfillStep progress

/-! ## Enrichment records (scripts/process_ocr_deepseek.py) -/

/-- The fixed keyword schema of the prompt (nine keyword fields plus era). -/
structure Keywords where
  era : List Char
  subject_topic : List Char
  secondary_topic : List Char
  document_type : List Char
  geographic_scope : List Char
  organizations : List Char
  people : List Char
  technologies : List Char
  security_level : List Char
  themes : List Char
deriving DecidableEq, Repr

/-- The structured object `process_text_with_deepseek` returns for a chunk. -/
structure Structured where
  filetitle : List Char
  title : Option (List Char)
  publication_date : Option (List Char)
  keywords : Keywords
deriving DecidableEq, Repr

/-- The final record written by `process_file`: the last chunk's structured
fields with `body` and `filetitle` overwritten. -/
structure Enriched where
  filetitle : List Char
  title : Option (List Char)
  publication_date : Option (List Char)
  keywords : Keywords
  body : List Char
deriving DecidableEq, Repr

/-- Python `filename.replace('.txt', '')`: remove every occurrence of
`.txt`, scanning left to right. -/
def stripTxt : List Char → List Char
  | '.' :: 't' :: 'x' :: 't' :: rest => stripTxt rest
  | [] => []
  | c :: rest => c :: stripTxt rest

/-! ## `process_file` (scripts/process_ocr_deepseek.py, lines 320-396)

The filename-header removal loop (lines 341-357):

```python
lines = ocr_text.split('\n')
...
for line in lines:
    if skip_header and line.startswith('filename:'):
        continue
    elif skip_header and line.strip() == '':
        continue
    elif skip_header:
        skip_header = False
        content_lines.append(line)
    else:
        content_lines.append(line)
clean_ocr_text = '\n'.join(content_lines).strip()
```
-/

def stripHeaderGo : Bool → List (List Char) → List (List Char)
  | _, [] => []
  | false, l :: rest => l :: stripHeaderGo false rest
  | true, l :: rest =>
    if "filename:".toList.isPrefixOf l then stripHeaderGo true rest
    else if (pystrip l).isEmpty then stripHeaderGo true rest
    else l :: stripHeaderGo false rest

/-- The `clean_ocr_text` value of `process_file`. -/
def cleanText (ocr_text : List Char) : List Char :=
  pystrip (List.intercalate ['\n'] (stripHeaderGo true (ocr_text.splitOn '\n')))

/-- The per-chunk loop: call the backend on each input chunk in order; any
`None` makes the whole file fail; only the last chunk's structured object is
kept.  `backend i c` stands for `process_text_with_deepseek(c,
f"{filename} [chunk {i+1}/{n}]", metadata)`. -/
def runChunks (backend : Nat → List Char → Option Structured) :
    Nat → List (List Char) → Option Structured
  | _, [] => none
  | i, [c] => backend i c
  | i, c :: c2 :: rest =>
    if (backend i c).isSome then runChunks backend (i + 1) (c2 :: rest)
    else none

def process_file (filename ocr_text : List Char)
    (backend : Nat → List Char → Option Structured) : Option Enriched :=
  if (pystrip ocr_text).isEmpty then none
  else if (cleanText ocr_text).isEmpty then none
  else
    (runChunks backend 0 (chunk_text (cleanText ocr_text) 8000 500)).map fun sd =>
      { filetitle := stripTxt filename
        title := sd.title
        publication_date := sd.publication_date
        keywords := sd.keywords
        body := List.intercalate sep2 (chunk_text (cleanText ocr_text) 8000 500) }

/-! ## Response parsing in `process_text_with_deepseek`
(scripts/process_ocr_deepseek.py, lines 248-311)

The JSON decoder `json.loads` is an external library, modelled as a
parameter `jp`; `jp s = none` is a `json.JSONDecodeError`.  A decoded object
is modelled with its schema-relevant keys as `Option` fields (`none` = key
absent). -/

structure JsonDoc where
  filetitle : Option (List Char)
  title : Option (List Char)
  publication_date : Option (List Char)
  keywords : Option Keywords
deriving DecidableEq, Repr

/-- Python `str.find`: index of the first occurrence or `-1`. -/
def pyFind (l : List Char) (c : Char) : Int :=
  match l.findIdx? (fun x => x = c) with
  | some i => (i : Int)
  | none => -1

/-- Python `str.rfind`: index of the last occurrence or `-1`. -/
def pyRFind (l : List Char) (c : Char) : Int :=
  match l.reverse.findIdx? (fun x => x = c) with
  | some j => (l.length : Int) - 1 - (j : Int)
  | none => -1

/-- Lines 254-258: `start_idx = response_text.find('{')`,
`end_idx = response_text.rfind('}') + 1`; the candidate JSON string is
`response_text[start_idx:end_idx]` when `start_idx != -1 and end_idx >
start_idx`. -/
def extractBraced (resp : List Char) : Option (List Char) :=
  let s := pyFind resp (Char.ofNat 123)
  let e := pyRFind resp (Char.ofNat 125) + 1
  if s ≠ -1 ∧ e > s then some ((resp.drop s.toNat).take (e - s).toNat)
  else none

/-- Python `x or default` on an optional string (empty string is falsy). -/
def pyOrStr (a : Option (List Char)) (d : List Char) : List Char :=
  match a with
  | some s => if s.isEmpty then d else s
  | none => d

/-- Python truthiness of an optional string. -/
def truthyOpt (a : Option (List Char)) : Bool :=
  match a with
  | some s => !s.isEmpty
  | none => false

/-- The fallback structured object synthesised on a `json.JSONDecodeError`
(lines 287-307). -/
def fallbackStructured (filename : List Char)
    (publication_date era_from_metadata : Option (List Char)) : Structured :=
  { filetitle := stripTxt filename
    title := none
    publication_date := publication_date
    keywords :=
      { era := pyOrStr era_from_metadata "Unknown".toList
        subject_topic := "Document analysis".toList
        secondary_topic := "OCR correction".toList
        document_type := "Document".toList
        geographic_scope := "Unknown".toList
        organizations := "Unknown".toList
        people := "Unknown".toList
        technologies := "Unknown".toList
        security_level := "Unknown".toList
        themes := "Document processing".toList } }

/-- Lines 261-276: a decoded object missing `filetitle` or `keywords`
returns `None`; otherwise `publication_date` is defaulted from metadata and
a literal-`"null"` era is replaced by the metadata era. -/
def normalizeDoc (doc : JsonDoc)
    (publication_date era_from_metadata : Option (List Char)) :
    Option Structured :=
  match doc.filetitle, doc.keywords with
  | some ft, some kw =>
    let pd := match doc.publication_date with
      | some p => some p
      | none => publication_date
    let kw' := if truthyOpt era_from_metadata && decide (kw.era = "null".toList)
      then { kw with era := era_from_metadata.getD [] } else kw
    some { filetitle := ft, title := doc.title, publication_date := pd,
           keywords := kw' }
  | _, _ => none

/-- The response-handling tail of `process_text_with_deepseek` for a
received (HTTP 200) backend response `raw`. -/
def parse_deepseek_response (jp : List Char → Option JsonDoc)
    (raw filename : List Char)
    (publication_date era_from_metadata : Option (List Char)) :
    Option Structured :=
  match extractBraced (pystrip raw) with
  | some json_str =>
    match jp json_str with
    | some doc => normalizeDoc doc publication_date era_from_metadata
    | none => some (fallbackStructured filename publication_date era_from_metadata)
  | none => none

/-! ## `scrape_document` (scripts/collect_articles_continuation.py, lines 118-199)

The persisted state is the pair of durable URL sets.  The page automation,
HTTP client and filesystem are external; their completed effects are
recorded as an event trace.  An exception raised by one of the steps of the
`try` block is injected through `failAt`; `download_pdf` catches its own
exceptions and merely returns `False`, so download failures are modelled by
`dlOk` instead.  (In the Python process the in-memory `visited` set is
mutated just before `save_visited()`; the model tracks the durable set, the
one that decides what is retried on the next run.) -/

structure HarvestState where
  visited : List (List Char)
  unavailables : List (List Char)
deriving DecidableEq, Repr

/-- What the browser yields for a document page: the page title, the
"unavailable" marker test on the body, the extracted attachment candidates,
and the derived `doc_id` (regex on URL / metadata, else title slug). -/
structure PageData where
  title : List Char
  unavailable : Bool
  pdf_links : List (List Char)
  doc_id : List Char
deriving DecidableEq, Repr

inductive HEvent where
  | navigate (url : List Char)
  | saveUnavailables
  | download (link : List Char)
  | saveVisited
  | saveMetadata (doc_id : List Char)
  | logStatus (url : List Char)
deriving DecidableEq, Repr

/-- The step of the `try` block at which an injected exception is raised. -/
inductive FailPoint where
  | navigateStep
  | extractStep
  | saveVisitedStep
  | saveMetadataStep
  | logStatusStep
deriving DecidableEq, Repr

def scrape_document (st : HarvestState) (url : List Char) (pg : PageData)
    (dlOk : List Char → Bool) (failAt : Option FailPoint) :
    HarvestState × List HEvent :=
  if url ∈ st.visited then (st, [])
  else if url ∈ st.unavailables then (st, [])
  else if failAt = some .navigateStep then (st, [])
  else if pg.unavailable then
    ({ st with unavailables := url :: st.unavailables },
      [.navigate url, .saveUnavailables])
  else if failAt = some .extractStep then (st, [.navigate url])
  else
    let dls := (pg.pdf_links.filter dlOk).map HEvent.download
    if failAt = some .saveVisitedStep then (st, .navigate url :: dls)
    else
      let st2 := { st with visited := url :: st.visited }
      if failAt = some .saveMetadataStep then
        (st2, .navigate url :: dls ++ [.saveVisited])
      else if failAt = some .logStatusStep then
        (st2, .navigate url :: dls ++ [.saveVisited, .saveMetadata pg.doc_id])
      else
        (st2, .navigate url :: dls ++
          [.saveVisited, .saveMetadata pg.doc_id, .logStatus url])

/-- A harvest sweep over a list of discovered URLs. -/
def scrape_documents (st : HarvestState) (urls : List (List Char))
    (pgOf : List Char → PageData) (dlOk : List Char → Bool)
    (failAt : List Char → Option FailPoint) : HarvestState × List HEvent :=
  match urls with
  | [] => (st, [])
  | u :: rest =>
    let r1 := scrape_document st u (pgOf u) dlOk (failAt u)
    let r2 := scrape_documents r1.1 rest pgOf dlOk failAt
    (r2.1, r1.2 ++ r2.2)

/-! ## The frontier walkers -/

/-- What one listing-page navigation yields: either an exception (`err`) or
the rendered page's settled URL, title, document anchors and whether the
body carries the root-archive marker / the "unavailable" marker. -/
inductive FetchResult where
  | err
  | pageData (unavailable : Bool) (url : List Char) (title : List Char)
      (anchors : List (List Char)) (bodyHasRootMarker : Bool)
deriving DecidableEq, Repr

inductive WEvent where
  | save (year page : Nat)
  | fetch (year page : Nat)
  | doc (url : List Char)
deriving DecidableEq, Repr

def rootTitle : List Char :=
  "Freedom of Information Act Electronic Reading Room".toList

def searchSiteMark : List Char := "search/site".toList

def searchMark : List Char := "search".toList

def readingroomStart : List Char := "https://www.cia.gov/readingroom/".toList

/-- Python `pat in s` on strings: contiguous substring test. -/
def isSubstring (pat : List Char) : List Char → Bool
  | [] => pat.isEmpty
  | c :: rest => pat.isPrefixOf (c :: rest) || isSubstring pat rest

/-- Function `save_progress` (collect_articles_continuation.py, lines 56-63): load
the progress map, set the year's entry, rewrite the file.  Keys are the
years (written as `str(year)` in the JSON). -/
def setProg : List (Nat × Nat) → Nat → Nat → List (Nat × Nat)
  | [], y, p => [(y, p)]
  | (y', p') :: rest, y, p =>
    if y' = y then (y, p) :: rest else (y', p') :: setProg rest y p

def getProg : List (Nat × Nat) → Nat → Option Nat
  | [], _ => none
  | (y', p') :: rest, y => if y' = y then some p' else getProg rest y

/-- Loop `scrape_index_pages` (collect_articles_continuation.py, lines 326-405),
as a fuel-bounded loop over the persisted progress map and the `(year,
page)` cursor.  Per iteration: persist the cursor, fetch; then in order:
unavailable marker → skip page; URL no longer on `search/site` → break;
root title on a non-search URL → next year; no anchors with the root marker
in the body → next year, without it → break; otherwise emit the document
urls (handed to `scrape_document`) and advance the page. -/
def walk (env : Nat → Nat → FetchResult) :
    Nat → List (Nat × Nat) → Nat → Nat → List (Nat × Nat) × List WEvent
  | 0, prog, _, _ => (prog, [])
  | fuel + 1, prog, year, page =>
    let prog1 := setProg prog year page
    match env year page with
    | .err => (prog1, [.save year page, .fetch year page])
    | .pageData unavail url title anchors marker =>
      if unavail then
        let prog2 := setProg prog1 year (page + 1)
        let r := walk env fuel prog2 year (page + 1)
        (r.1, .save year page :: .fetch year page :: .save year (page + 1) :: r.2)
      else if ¬ isSubstring searchSiteMark url then
        (prog1, [.save year page, .fetch year page])
      else if isSubstring rootTitle title ∧
          ¬ isSubstring searchMark (url.map Char.toLower) then
        let prog2 := setProg prog1 (year + 1) 0
        let r := walk env fuel prog2 (year + 1) 0
        (r.1, .save year page :: .fetch year page :: .save (year + 1) 0 :: r.2)
      else if anchors.isEmpty then
        if marker then
          let prog2 := setProg prog1 (year + 1) 0
          let r := walk env fuel prog2 (year + 1) 0
          (r.1, .save year page :: .fetch year page :: .save (year + 1) 0 :: r.2)
        else (prog1, [.save year page, .fetch year page])
      else
        let docs := (anchors.filter readingroomStart.isPrefixOf).map WEvent.doc
        let r := walk env fuel prog1 year (page + 1)
        (r.1, .save year page :: .fetch year page :: docs ++ r.2)

/-- Loop `scrape_index_pages` of the original scripts/collect_articles.py, lines
141-178: one fixed year, `for page_num in range(start_page, start_page +
max_pages)`, `save_last_page(page_num + 1)` only after a page's anchors are
processed, `break` on an exception or on a page without anchors.  Returns
the persisted `last_page` value and the event trace. -/
def legacyWalk (env : Nat → FetchResult) (year : Nat) :
    Nat → Nat → Nat → Nat × List WEvent
  | 0, _, saved => (saved, [])
  | count + 1, page, saved =>
    match env page with
    | .err => (saved, [.fetch year page])
    | .pageData _ _ _ anchors _ =>
      if anchors.isEmpty then (saved, [.fetch year page])
      else
        let docs := (anchors.filter readingroomStart.isPrefixOf).map WEvent.doc
        let r := legacyWalk env year count (page + 1) (page + 1)
        (r.1, .fetch year page :: docs ++ .save year (page + 1) :: r.2)

/-- Property that every fetch of `(year, page)` is immediately preceded by a persist of
`(year, page)`", scanned along the trace from a preceding event `prev`. -/
def fetchChainOk (prev : WEvent) : List WEvent → Bool
  | [] => true
  | e :: rest =>
    (match e with
     | .fetch y p => decide (prev = WEvent.save y p)
     | _ => true) && fetchChainOk e rest

/-- The whole-trace version: additionally, the trace may not open with a
fetch (there would be no persist before it). -/
def fetchOk : List WEvent → Bool
  | [] => true
  | .fetch _ _ :: _ => false
  | e :: rest => fetchChainOk e rest

/-- C1 counterexample: a document whose only page is a 99-character
extraction sentinel — zero non-sentinel pages, 99 trimmed characters — is
*returned* by `extract_text_from_pdf` (ocr_easyocr.py), while the claim
says it is rejected. -/
def sentinelPage99 : List Char :=
  "[EASYOCR FAILED: ".toList ++ List.replicate 81 'x' ++ [']']

def exampleKeywords : Keywords :=
  { era := "1980s".toList
    subject_topic := "s".toList
    secondary_topic := "s2".toList
    document_type := "memo".toList
    geographic_scope := "g".toList
    organizations := "o".toList
    people := "p".toList
    technologies := "t".toList
    security_level := "SECRET".toList
    themes := "th".toList }

def exampleStructured : Structured :=
  { filetitle := "x".toList
    title := some "T".toList
    publication_date := some "1984-05-01".toList
    keywords := exampleKeywords }

def exampleBackend : Nat → List Char → Option Structured :=
  fun _ _ => some exampleStructured

def exampleOcrText : List Char := "filename: a.txt\n\nhello world".toList

def exampleEnriched : Enriched :=
  { filetitle := "a".toList
    title := some "T".toList
    publication_date := some "1984-05-01".toList
    keywords := exampleKeywords
    body := "hello world".toList }

def pgSimple : PageData :=
  { title := "t".toList
    unavailable := false
    pdf_links := []
    doc_id := "d".toList }

/-- The listing page the C3 fixture describes: title equal to the root
archive title, while the settled URL is the plain reading-room page, not a
search URL. -/
def env3 : Nat → Nat → FetchResult := fun y p =>
  if y = 2012 ∧ p = 0 then
    FetchResult.pageData false "https://www.cia.gov/readingroom".toList
      rootTitle [] true
  else FetchResult.err

/-- A rollover page that *is* under the search path: no anchors, root
marker in the body. -/
def env4 : Nat → Nat → FetchResult := fun y p =>
  if y = 2012 ∧ p = 0 then
    FetchResult.pageData false
      "https://www.cia.gov/readingroom/search/site?page=0".toList
      rootTitle [] true
  else FetchResult.err

/-- Page environment for the legacy walker counterexample: one page of
anchors, then an exception. -/
def envLegacy : Nat → FetchResult := fun p =>
  if p = 0 then
    FetchResult.pageData false "x".toList "t".toList
      ["https://www.cia.gov/readingroom/doc1".toList] false
  else FetchResult.err

/-! ## Lemmas and claim theorems -/

lemma chunkGo_dropJoin (text : List Char) (cs ov : Nat) (hov : ov < cs) :
    ∀ fuel start, text.length < start + fuel →
      dropJoin ov (chunkGo text cs ov fuel start) = text.drop (start + ov) := by
  intro fuel
  induction fuel with
  | zero =>
    intro start h
    simp only [chunkGo, dropJoin, List.map_nil, List.flatten_nil]
    exact (List.drop_eq_nil_of_le (by omega)).symm
  | succ fuel ih =>
    intro start h
    by_cases hs : start < text.length
    · simp only [chunkGo, hs, if_true]
      by_cases he : min (start + cs) text.length = text.length
      · simp only [he, if_true, dropJoin, List.map_cons, List.map_nil,
          List.flatten_cons, List.flatten_nil, List.append_nil]
        have htake : (text.drop start).take (text.length - start) =
            text.drop start := by
          apply List.take_of_length_le
          simp
        rw [htake, List.drop_drop]
      · have hmin : min (start + cs) text.length = start + cs := by omega
        have hlt : start + cs < text.length := by omega
        simp only [hmin, if_neg (by omega : ¬ start + cs = text.length),
          dropJoin, List.map_cons, List.flatten_cons]
        have ihres := ih (start + cs - ov) (by omega)
        simp only [dropJoin] at ihres
        rw [ihres]
        have h2 : start + cs - ov + ov = start + cs := by omega
        rw [h2]
        have h3 : start + cs - start = cs := by omega
        rw [h3]
        rw [List.drop_take]
        have h4 : text.drop (start + cs) = (text.drop (start + ov)).drop (cs - ov) := by
          rw [List.drop_drop]
          congr 1
          omega
        have h5 : text.drop (start + ov) = (text.drop start).drop ov := by
          rw [List.drop_drop]
        rw [h4, h5, List.take_append_drop]
    · simp only [chunkGo, hs, if_false, dropJoin, List.map_nil, List.flatten_nil]
      exact (List.drop_eq_nil_of_le (by omega)).symm

lemma chunkGo_reassemble (text : List Char) (cs ov : Nat) (hov : ov < cs) :
    ∀ fuel start, text.length < start + fuel →
      reassemble ov (chunkGo text cs ov fuel start) = text.drop start := by
  intro fuel start h
  match fuel with
  | 0 =>
    simp only [chunkGo, reassemble]
    exact (List.drop_eq_nil_of_le (by omega)).symm
  | fuel + 1 =>
    by_cases hs : start < text.length
    · simp only [chunkGo, hs, if_true]
      by_cases he : min (start + cs) text.length = text.length
      · simp only [he, if_true, reassemble, dropJoin, List.map_nil,
          List.flatten_nil, List.append_nil]
        apply List.take_of_length_le
        simp
      · have hmin : min (start + cs) text.length = start + cs := by omega
        have hlt : start + cs < text.length := by omega
        simp only [hmin, if_neg (by omega : ¬ start + cs = text.length),
          reassemble]
        rw [chunkGo_dropJoin text cs ov hov fuel (start + cs - ov) (by omega)]
        have h2 : start + cs - ov + ov = start + cs := by omega
        rw [h2]
        have h3 : start + cs - start = cs := by omega
        rw [h3]
        have h4 : text.drop (start + cs) = (text.drop start).drop cs := by
          rw [List.drop_drop]
        rw [h4, List.take_append_drop]
    · simp only [chunkGo, hs, if_false, reassemble]
      exact (List.drop_eq_nil_of_le (by omega)).symm

lemma chunkGo_length_le (text : List Char) (cs ov : Nat) :
    ∀ fuel start c, c ∈ chunkGo text cs ov fuel start → c.length ≤ cs := by
  intro fuel
  induction fuel with
  | zero => intro start c hc; simp [chunkGo] at hc
  | succ fuel ih =>
    intro start c hc
    by_cases hs : start < text.length
    · simp only [chunkGo, hs, if_true] at hc
      by_cases he : min (start + cs) text.length = text.length
      · simp only [he, if_true, List.mem_singleton] at hc
        subst hc
        have h1 := List.length_take_le (text.length - start) (text.drop start)
        omega
      · have hmin : min (start + cs) text.length = start + cs := by omega
        simp only [hmin, if_neg (by omega : ¬ start + cs = text.length),
          List.mem_cons] at hc
        rcases hc with hc | hc
        · subst hc
          have h1 := List.length_take_le (start + cs - start) (text.drop start)
          omega
        · exact ih _ c hc
    · simp [chunkGo, hs] at hc

lemma matchYear_range {a b c d : Char} {y : Nat} (h : matchYear a b c d = some y) :
    1970 ≤ y ∧ y ≤ 2029 := by
  unfold matchYear at h
  unfold digitVal at h
  split_ifs at h with h1 h2
  · obtain ⟨_, _, hc1, hc2, hd1, hd2⟩ := h1
    injection h with h
    omega
  · obtain ⟨_, _, hc1, hc2, hd1, hd2⟩ := h2
    injection h with h
    omega

lemma searchYear_range {s : List Char} {y : Nat} (h : searchYear s = some y) :
    1970 ≤ y ∧ y ≤ 2029 := by
  induction s with
  | nil => simp [searchYear] at h
  | cons a t ih =>
    match t, h with
    | b :: c :: d :: rest, h =>
      rw [searchYear] at h
      rcases hm : matchYear a b c d with _ | y'
      · rw [hm] at h
        exact ih h
      · rw [hm] at h
        injection h with h
        subst h
        exact matchYear_range hm
    | [], h => simp [searchYear] at h
    | [b], h => simp [searchYear] at h
    | [b, c], h => simp [searchYear] at h

lemma searchYear_isSome_iff (s : List Char) :
    (searchYear s).isSome ↔ ∃ i, yearPatternAt s i := by
  induction s with
  | nil =>
    simp only [searchYear, Option.isSome_none, Bool.false_eq_true, false_iff]
    rintro ⟨i, a, b, c, d, rest, hdrop, _⟩
    simp at hdrop
  | cons a t ih =>
    match t with
    | b :: c :: d :: rest =>
      rw [searchYear]
      rcases hm : matchYear a b c d with _ | y'
      · show (searchYear (b :: c :: d :: rest)).isSome = true ↔
          ∃ i, yearPatternAt (a :: b :: c :: d :: rest) i
        rw [ih]
        constructor
        · rintro ⟨j, hj⟩
          exact ⟨j + 1, by simpa [yearPatternAt] using hj⟩
        · rintro ⟨i, a', b', c', d', rest', hdrop, hsome⟩
          match i, hdrop with
          | 0, hdrop =>
            simp only [List.drop_zero] at hdrop
            injection hdrop with h1 h2
            injection h2 with h2 h3
            injection h3 with h3 h4
            injection h4 with h4 h5
            subst h1; subst h2; subst h3; subst h4
            rw [hm] at hsome
            simp at hsome
          | j + 1, hdrop =>
            exact ⟨j, a', b', c', d', rest', by simpa using hdrop, hsome⟩
      · show (some y').isSome = true ↔
          ∃ i, yearPatternAt (a :: b :: c :: d :: rest) i
        simp only [Option.isSome_some, true_iff]
        exact ⟨0, a, b, c, d, rest, by simp, by simp [hm]⟩
    | [] =>
      simp only [searchYear, Option.isSome_none, Bool.false_eq_true, false_iff]
      rintro ⟨i, a', b', c', d', rest', hdrop, _⟩
      have := congrArg List.length hdrop
      simp at this
      omega
    | [b] =>
      simp only [searchYear, Option.isSome_none, Bool.false_eq_true, false_iff]
      rintro ⟨i, a', b', c', d', rest', hdrop, _⟩
      have := congrArg List.length hdrop
      simp at this
      omega
    | [b, c] =>
      simp only [searchYear, Option.isSome_none, Bool.false_eq_true, false_iff]
      rintro ⟨i, a', b', c', d', rest', hdrop, _⟩
      have := congrArg List.length hdrop
      simp at this
      omega

lemma getKey_setKey_eq (p : List (List Char × OcrEntry)) (k : List Char)
    (v : OcrEntry) : getKey (setKey p k v) k = some v := by
  induction p with
  | nil => simp [setKey, getKey]
  | cons kv rest ih =>
    obtain ⟨k', v'⟩ := kv
    by_cases h : k' = k
    · simp [setKey, getKey, h]
    · simp [setKey, getKey, h, ih]

lemma getKey_setKey_ne (p : List (List Char × OcrEntry)) (k k' : List Char)
    (v : OcrEntry) (h : k' ≠ k) : getKey (setKey p k' v) k = getKey p k := by
  induction p with
  | nil => simp [setKey, getKey, h]
  | cons kv rest ih =>
    obtain ⟨k'', v''⟩ := kv
    by_cases h2 : k'' = k'
    · simp [setKey, getKey, h2, h]
    · simp only [setKey, if_neg h2, getKey]
      by_cases h3 : k'' = k
      · simp [h3]
      · simp [h3, ih]

/-- A ledger key whose entry is already `completed` is untouched by one
backfill step. -/
lemma backfillStep_preserves_completed (p : List (List Char × OcrEntry))
    (f : TxtFile) (k : List Char) (e : OcrEntry)
    (hk : getKey p k = some e) (he : e.status = completedStatus) :
    getKey (backfillStep p f) k = some e := by
  obtain ⟨pdf, fc⟩ := f
  rcases fc with _ | content
  · exact hk
  · show getKey
      (if !(pystrip content).isEmpty && notCompletedAt p pdf then
        setKey p pdf completedEntry else p) k = some e
    by_cases hkey : pdf = k
    · subst hkey
      have hnc : notCompletedAt p pdf = false := by
        rw [notCompletedAt, hk]
        simp [he]
      rw [hnc]
      simpa using hk
    · split
      · rw [getKey_setKey_ne p k pdf completedEntry hkey, hk]
      · exact hk

lemma backprop_preserves_completed (fs : List TxtFile) :
    ∀ (p : List (List Char × OcrEntry)) (k : List Char) (e : OcrEntry),
      getKey p k = some e → e.status = completedStatus →
      getKey (backpropagate_completed_files fs p) k = some e := by
  induction fs with
  | nil => intro p k e hk _; exact hk
  | cons f rest ih =>
    intro p k e hk he
    exact ih (backfillStep p f) k e (backfillStep_preserves_completed p f k e hk he) he

/-- After one backfill step on a readable, non-blank file, its key holds a
`completed` entry. -/
lemma backfillStep_completes (p : List (List Char × OcrEntry)) (f : TxtFile)
    (c : List Char) (hc : f.content = some c)
    (hne : (pystrip c).isEmpty = false) :
    ∃ e, getKey (backfillStep p f) f.pdfName = some e ∧
      e.status = completedStatus := by
  obtain ⟨pdf, fc⟩ := f
  simp only at hc
  subst hc
  show ∃ e, getKey
      (if !(pystrip c).isEmpty && notCompletedAt p pdf then
        setKey p pdf completedEntry else p) pdf = some e ∧
      e.status = completedStatus
  rw [hne]
  by_cases hnc : notCompletedAt p pdf = true
  · rw [hnc]
    simp only [Bool.not_false, Bool.and_true, if_true]
    exact ⟨completedEntry, getKey_setKey_eq p pdf completedEntry, rfl⟩
  · rw [Bool.not_eq_true] at hnc
    rw [hnc]
    simp only [Bool.not_false, Bool.and_false, Bool.false_eq_true, if_false]
    rw [notCompletedAt] at hnc
    rcases hg : getKey p pdf with _ | e
    · rw [hg] at hnc; simp at hnc
    · rw [hg] at hnc
      simp only [decide_eq_false_iff_not, not_not] at hnc
      exact ⟨e, rfl, hnc⟩

/-- A key that belongs to none of the scanned files is untouched by the
whole backfill pass. -/
lemma backprop_untouched (fs : List TxtFile) :
    ∀ (p : List (List Char × OcrEntry)) (k : List Char),
      (∀ f ∈ fs, f.pdfName ≠ k) →
      getKey (backpropagate_completed_files fs p) k = getKey p k := by
  induction fs with
  | nil => intro p k _; rfl
  | cons f rest ih =>
    intro p k hk
    have hne : f.pdfName ≠ k := hk f (by simp)
    have hstep : getKey (backfillStep p f) k = getKey p k := by
      obtain ⟨pdf, fc⟩ := f
      simp only at hne
      rcases fc with _ | content
      · rfl
      · show getKey
          (if !(pystrip content).isEmpty && notCompletedAt p pdf then
            setKey p pdf completedEntry else p) k = getKey p k
        split
        · exact getKey_setKey_ne p k pdf completedEntry hne
        · rfl
    have hrest := ih (backfillStep p f) k (fun g hg => hk g (by simp [hg]))
    rw [backpropagate_completed_files, List.foldl_cons]
    rw [backpropagate_completed_files] at hrest
    rw [hrest, hstep]

lemma runChunks_last (backend : Nat → List Char → Option Structured) :
    ∀ (chunks : List (List Char)) (i : Nat) (sd : Structured),
      runChunks backend i chunks = some sd →
      ∃ lc, chunks.getLast? = some lc ∧
        backend (i + chunks.length - 1) lc = some sd := by
  intro chunks
  induction chunks with
  | nil => intro i sd h; simp [runChunks] at h
  | cons c rest ih =>
    intro i sd h
    rcases rest with _ | ⟨c2, rest'⟩
    · refine ⟨c, rfl, ?_⟩
      simpa using h
    · rw [runChunks] at h
      by_cases hb : (backend i c).isSome
      · rw [if_pos hb] at h
        obtain ⟨lc, hlast, hback⟩ := ih (i + 1) sd h
        refine ⟨lc, ?_, ?_⟩
        · rw [List.getLast?_cons_cons]
          exact hlast
        · have harith : i + 1 + (c2 :: rest').length - 1 =
              i + (c :: c2 :: rest').length - 1 := by
            simp only [List.length_cons]
            omega
          rw [← harith]
          exact hback
      · rw [if_neg hb] at h
        simp at h

lemma scrape_document_skips (st : HarvestState) (url : List Char)
    (pg : PageData) (dlOk : List Char → Bool) (failAt : Option FailPoint)
    (h : url ∈ st.visited ∨ url ∈ st.unavailables) :
    scrape_document st url pg dlOk failAt = (st, []) := by
  rcases h with h | h
  · rw [scrape_document, if_pos h]
  · rw [scrape_document]
    by_cases h2 : url ∈ st.visited
    · rw [if_pos h2]
    · rw [if_neg h2, if_pos h]

lemma fetchChainOk_append (l1 l2 : List WEvent) (prev : WEvent)
    (h1 : fetchChainOk prev l1 = true)
    (h2 : fetchOk l2 = true)
    (h3 : ∀ y p, l2.head? = some (.fetch y p) → False) :
    fetchChainOk prev (l1 ++ l2) = true := by
  induction l1 generalizing prev with
  | nil =>
    simp only [List.nil_append]
    rcases l2 with _ | ⟨e, rest⟩
    · rfl
    · rcases e with _ | ⟨y, p⟩ | _
      · simpa [fetchOk] using h2
      · exact absurd rfl (h3 y p)
      · simpa [fetchOk] using h2
  | cons e rest ih =>
    simp only [List.cons_append, fetchChainOk, Bool.and_eq_true] at h1 ⊢
    exact ⟨h1.1, ih e h1.2⟩

lemma fetchChainOk_of_no_fetch (l : List WEvent) (prev : WEvent)
    (h : ∀ e ∈ l, ∀ y p, e ≠ WEvent.fetch y p) :
    fetchChainOk prev l = true := by
  induction l generalizing prev with
  | nil => rfl
  | cons e rest ih =>
    simp only [fetchChainOk, Bool.and_eq_true]
    constructor
    · rcases e with _ | ⟨y, p⟩ | _
      · rfl
      · exact absurd rfl (h _ (by simp) y p)
      · rfl
    · exact ih e fun e' he' => h e' (by simp [he'])

lemma fetchChainOk_of_fetchOk (l : List WEvent) (prev : WEvent)
    (h2 : fetchOk l = true)
    (h3 : ∀ y p, l.head? = some (.fetch y p) → False) :
    fetchChainOk prev l = true :=
  fetchChainOk_append [] l prev rfl h2 h3

lemma fetchOk_halt (year page : Nat) :
    fetchOk [WEvent.save year page, WEvent.fetch year page] = true := by
  simp [fetchOk, fetchChainOk]

lemma fetchOk_block (year page : Nat) (mid tail : List WEvent)
    (hmid : ∀ e ∈ mid, ∀ y p, e ≠ WEvent.fetch y p)
    (htail : fetchOk tail = true)
    (hhead : ∀ y p, tail.head? = some (WEvent.fetch y p) → False) :
    fetchOk (WEvent.save year page :: WEvent.fetch year page :: mid ++ tail)
      = true := by
  show fetchChainOk (WEvent.save year page)
    (WEvent.fetch year page :: mid ++ tail) = true
  simp only [fetchChainOk, Bool.and_eq_true]
  refine ⟨by simp, ?_⟩
  exact fetchChainOk_append mid tail _
    (fetchChainOk_of_no_fetch mid _ hmid) htail hhead

/-! ### One-step equations for `walk` -/

lemma walk_err (env : Nat → Nat → FetchResult) (fuel : Nat)
    (prog : List (Nat × Nat)) (year page : Nat)
    (henv : env year page = .err) :
    walk env (fuel + 1) prog year page =
      (setProg prog year page,
        [WEvent.save year page, WEvent.fetch year page]) := by
  simp [walk, henv]

lemma walk_unavail (env : Nat → Nat → FetchResult) (fuel : Nat)
    (prog : List (Nat × Nat)) (year page : Nat) (url title : List Char)
    (anchors : List (List Char)) (marker : Bool)
    (henv : env year page = .pageData true url title anchors marker) :
    walk env (fuel + 1) prog year page =
      ((walk env fuel (setProg (setProg prog year page) year (page + 1))
          year (page + 1)).1,
        WEvent.save year page :: WEvent.fetch year page ::
          WEvent.save year (page + 1) ::
          (walk env fuel (setProg (setProg prog year page) year (page + 1))
            year (page + 1)).2) := by
  simp [walk, henv]

lemma walk_redirect (env : Nat → Nat → FetchResult) (fuel : Nat)
    (prog : List (Nat × Nat)) (year page : Nat) (url title : List Char)
    (anchors : List (List Char)) (marker : Bool)
    (henv : env year page = .pageData false url title anchors marker)
    (hred : isSubstring searchSiteMark url = false) :
    walk env (fuel + 1) prog year page =
      (setProg prog year page,
        [WEvent.save year page, WEvent.fetch year page]) := by
  simp [walk, henv, hred]

lemma walk_rollover_title (env : Nat → Nat → FetchResult) (fuel : Nat)
    (prog : List (Nat × Nat)) (year page : Nat) (url title : List Char)
    (anchors : List (List Char)) (marker : Bool)
    (henv : env year page = .pageData false url title anchors marker)
    (hred : isSubstring searchSiteMark url = true)
    (hroot : isSubstring rootTitle title = true)
    (hsearch : isSubstring searchMark (url.map Char.toLower) = false) :
    walk env (fuel + 1) prog year page =
      ((walk env fuel (setProg (setProg prog year page) (year + 1) 0)
          (year + 1) 0).1,
        WEvent.save year page :: WEvent.fetch year page ::
          WEvent.save (year + 1) 0 ::
          (walk env fuel (setProg (setProg prog year page) (year + 1) 0)
            (year + 1) 0).2) := by
  simp [walk, henv, hred, hroot, hsearch]

lemma walk_rollover_marker (env : Nat → Nat → FetchResult) (fuel : Nat)
    (prog : List (Nat × Nat)) (year page : Nat) (url title : List Char)
    (henv : env year page = .pageData false url title [] true)
    (hred : isSubstring searchSiteMark url = true)
    (hroot : ¬ (isSubstring rootTitle title = true ∧
      isSubstring searchMark (url.map Char.toLower) = false)) :
    walk env (fuel + 1) prog year page =
      ((walk env fuel (setProg (setProg prog year page) (year + 1) 0)
          (year + 1) 0).1,
        WEvent.save year page :: WEvent.fetch year page ::
          WEvent.save (year + 1) 0 ::
          (walk env fuel (setProg (setProg prog year page) (year + 1) 0)
            (year + 1) 0).2) := by
  simp only [walk, henv, Bool.false_eq_true, if_false, hred, not_true,
    List.isEmpty_nil, if_true]
  rw [if_neg (by simpa [Bool.not_eq_true] using hroot)]

lemma walk_deadend (env : Nat → Nat → FetchResult) (fuel : Nat)
    (prog : List (Nat × Nat)) (year page : Nat) (url title : List Char)
    (henv : env year page = .pageData false url title [] false)
    (hred : isSubstring searchSiteMark url = true)
    (hroot : ¬ (isSubstring rootTitle title = true ∧
      isSubstring searchMark (url.map Char.toLower) = false)) :
    walk env (fuel + 1) prog year page =
      (setProg prog year page,
        [WEvent.save year page, WEvent.fetch year page]) := by
  simp only [walk, henv, Bool.false_eq_true, if_false, hred, not_true,
    List.isEmpty_nil, if_true]
  rw [if_neg (by simpa [Bool.not_eq_true] using hroot)]

lemma walk_docs (env : Nat → Nat → FetchResult) (fuel : Nat)
    (prog : List (Nat × Nat)) (year page : Nat) (url title : List Char)
    (anchors : List (List Char)) (marker : Bool)
    (henv : env year page = .pageData false url title anchors marker)
    (hred : isSubstring searchSiteMark url = true)
    (hroot : ¬ (isSubstring rootTitle title = true ∧
      isSubstring searchMark (url.map Char.toLower) = false))
    (hanch : anchors.isEmpty = false) :
    walk env (fuel + 1) prog year page =
      ((walk env fuel (setProg prog year page) year (page + 1)).1,
        WEvent.save year page :: WEvent.fetch year page ::
          (anchors.filter readingroomStart.isPrefixOf).map WEvent.doc ++
          (walk env fuel (setProg prog year page) year (page + 1)).2) := by
  simp only [walk, henv, Bool.false_eq_true, if_false, hred, not_true, hanch]
  rw [if_neg (by simpa [Bool.not_eq_true] using hroot)]

/-- The continuation walker persists the cursor immediately before every
listing-page fetch: along every trace it can produce, each `fetch (y, p)`
event is directly preceded by a `save (y, p)` event. -/
lemma walk_fetchOk_aux (env : Nat → Nat → FetchResult) :
    ∀ fuel prog year page,
      fetchOk (walk env fuel prog year page).2 = true ∧
      ∀ y p, (walk env fuel prog year page).2.head? =
        some (WEvent.fetch y p) → False := by
  intro fuel
  induction fuel with
  | zero =>
    intro prog year page
    exact ⟨rfl, by intro y p h; simp [walk] at h⟩
  | succ fuel ih =>
    intro prog year page
    rcases henv : env year page with _ | ⟨unavail, url, title, anchors, marker⟩
    · rw [walk_err env fuel prog year page henv]
      exact ⟨fetchOk_halt year page, by intro y p h; simp at h⟩
    · rcases unavail with _ | _
      · rcases hred : isSubstring searchSiteMark url with _ | _
        · rw [walk_redirect env fuel prog year page url title anchors marker
            henv hred]
          exact ⟨fetchOk_halt year page, by intro y p h; simp at h⟩
        · by_cases hroot : isSubstring rootTitle title = true ∧
            isSubstring searchMark (url.map Char.toLower) = false
          · rw [walk_rollover_title env fuel prog year page url title anchors
              marker henv hred hroot.1 hroot.2]
            obtain ⟨h1, h2⟩ :=
              ih (setProg (setProg prog year page) (year + 1) 0) (year + 1) 0
            constructor
            · exact fetchOk_block year page [WEvent.save (year + 1) 0] _
                (by intro e he y p; simp at he; simp [he]) h1 h2
            · intro y p h
              simp at h
          · rcases hanch : anchors.isEmpty with _ | _
            · rw [walk_docs env fuel prog year page url title anchors marker
                henv hred hroot hanch]
              obtain ⟨h1, h2⟩ := ih (setProg prog year page) year (page + 1)
              constructor
              · exact fetchOk_block year page
                  ((anchors.filter readingroomStart.isPrefixOf).map WEvent.doc)
                  _
                  (by intro e he y p
                      simp only [List.mem_map] at he
                      obtain ⟨a, _, ha⟩ := he
                      simp [← ha]) h1 h2
              · intro y p h
                simp at h
            · have hanil : anchors = [] := List.isEmpty_iff.mp hanch
              subst hanil
              rcases marker with _ | _
              · rw [walk_deadend env fuel prog year page url title henv hred
                  hroot]
                exact ⟨fetchOk_halt year page, by intro y p h; simp at h⟩
              · rw [walk_rollover_marker env fuel prog year page url title
                  henv hred hroot]
                obtain ⟨h1, h2⟩ :=
                  ih (setProg (setProg prog year page) (year + 1) 0) (year + 1) 0
                constructor
                · exact fetchOk_block year page [WEvent.save (year + 1) 0] _
                    (by intro e he y p; simp at he; simp [he]) h1 h2
                · intro y p h
                  simp at h
      · rw [walk_unavail env fuel prog year page url title anchors marker henv]
        obtain ⟨h1, h2⟩ :=
          ih (setProg (setProg prog year page) year (page + 1)) year (page + 1)
        constructor
        · exact fetchOk_block year page [WEvent.save year (page + 1)] _
            (by intro e he y p; simp at he; simp [he]) h1 h2
        · intro y p h
          simp at h

lemma getProg_setProg_eq (prog : List (Nat × Nat)) (y p : Nat) :
    getProg (setProg prog y p) y = some p := by
  induction prog with
  | nil => simp [setProg, getProg]
  | cons yp rest ih =>
    obtain ⟨y', p'⟩ := yp
    by_cases h : y' = y
    · simp [setProg, getProg, h]
    · simp [setProg, getProg, h, ih]

lemma getProg_setProg_ne (prog : List (Nat × Nat)) (y p y' : Nat)
    (h : y' ≠ y) : getProg (setProg prog y p) y' = getProg prog y' := by
  induction prog with
  | nil => simp [setProg, getProg, Ne.symm h]
  | cons yp rest ih =>
    obtain ⟨y'', p''⟩ := yp
    by_cases h2 : y'' = y
    · subst h2
      simp [setProg, getProg, Ne.symm h]
    · simp only [setProg, if_neg h2, getProg]
      by_cases h3 : y'' = y'
      · simp [h3]
      · simp [h3, ih]

lemma backprop_completes (fs : List TxtFile) :
    ∀ (progress : List (List Char × OcrEntry)) (f : TxtFile), f ∈ fs →
      ∀ c, f.content = some c → (pystrip c).isEmpty = false →
      ∃ e, getKey (backpropagate_completed_files fs progress) f.pdfName =
        some e ∧ e.status = completedStatus := by
  induction fs with
  | nil => intro p f hf; simp at hf
  | cons g rest ih =>
    intro p f hf c hc hne
    have hcons : backpropagate_completed_files (g :: rest) p =
        backpropagate_completed_files rest (backfillStep p g) := rfl
    rcases List.mem_cons.mp hf with rfl | hf'
    · obtain ⟨e, he, hst⟩ := backfillStep_completes p f c hc hne
      rw [hcons]
      exact ⟨e, backprop_preserves_completed rest (backfillStep p f)
        f.pdfName e he hst, hst⟩
    · rw [hcons]
      exact ih (backfillStep p g) f hf' c hc hne

/-! ## Claim theorems -/

/-- C7: for every input text (shorter or longer than one window) and any
configuration with `overlap < chunk_size` (the configured 8000/500 in
particular), `chunk_text` cuts windows of at most `chunk_size` characters,
and `chunks[0] ++ chunks[1][overlap:] ++ ... ` reconstructs the text
exactly. -/
theorem chunk_text_roundtrip (text : List Char) (chunk_size overlap : Nat)
    (hov : overlap < chunk_size) :
    (∀ c ∈ chunk_text text chunk_size overlap, c.length ≤ chunk_size) ∧
    reassemble overlap (chunk_text text chunk_size overlap) = text := by
  constructor
  · intro c hc
    exact chunkGo_length_le text chunk_size overlap _ 0 c hc
  · have h := chunkGo_reassemble text chunk_size overlap hov
      (text.length + 1) 0 (by omega)
    simpa [chunk_text] using h

theorem chunk_text_roundtrip_witness :
    reassemble 1 (chunk_text "abcdefgh".toList 3 1) = "abcdefgh".toList ∧
    reassemble 500 (chunk_text "hello world".toList 8000 500) =
      "hello world".toList ∧
    chunk_text "abcdefgh".toList 3 1 =
      ["abc".toList, "cde".toList, "efg".toList, "gh".toList] :=
  ⟨(chunk_text_roundtrip "abcdefgh".toList 3 1 (by decide)).2,
   (chunk_text_roundtrip "hello world".toList 8000 500 (by decide)).2,
   by decide⟩

/-- C10: `determine_era_from_date` yields a decade string exactly when the
date string carries a match of `19[7-9]\d|20[0-2]\d` (a four-digit year
1970-2029); strings with a year outside the range (1965, 2030) or no year
yield `None`, so pre-1970 dates never get a metadata era. -/
theorem determine_era_from_date_spec :
    (∀ s : List Char,
      (determine_era_from_date s).isSome ↔ ∃ i, yearPatternAt s i) ∧
    determine_era_from_date "1965-03-12".toList = none ∧
    determine_era_from_date "2030-01-01".toList = none ∧
    determine_era_from_date "".toList = none ∧
    determine_era_from_date "1978-11-07".toList = some "1970s".toList ∧
    determine_era_from_date "May 1984".toList = some "1980s".toList := by
  refine ⟨?_, by decide, by decide, by decide, by decide, by decide⟩
  intro s
  constructor
  · intro h
    unfold determine_era_from_date at h
    by_cases hs : s = []
    · rw [if_pos hs] at h
      simp at h
    · rw [if_neg hs] at h
      rcases hy : searchYear s with _ | y
      · rw [hy] at h; simp at h
      · exact (searchYear_isSome_iff s).mp (by simp [hy])
  · intro hex
    have hsome : (searchYear s).isSome := (searchYear_isSome_iff s).mpr hex
    rcases hy : searchYear s with _ | y
    · rw [hy] at hsome; simp at hsome
    · have hr := searchYear_range hy
      have hs : s ≠ [] := by
        rintro rfl
        simp [searchYear] at hy
      unfold determine_era_from_date
      rw [if_neg hs, hy]
      show (eraOf y).isSome = true
      unfold eraOf
      split_ifs <;> try rfl
      exfalso
      omega

theorem extract_acceptance_counterexample :
    non_empty_pages [sentinelPage99] = 0 ∧
    (pystrip (List.intercalate sep2 [sentinelPage99])).length = 99 ∧
    extract_text_from_pdf [sentinelPage99] =
      some (List.intercalate sep2 [sentinelPage99]) := by decide

/-- C1 amended: the 10-percent / 100-character acceptance condition is
computed but gates only a log line; `extract_text_from_pdf` returns the
concatenated text whenever it strips non-empty (sentinel pages included)
and fails only when it strips empty.  (The ocr_pdf.py variant likewise has
no threshold: it rejects only empty text or a leading whole-document
sentinel.) -/
theorem extract_text_accepts_any_nonempty (text_content : List (List Char)) :
    extract_text_from_pdf text_content =
      (if (pystrip (List.intercalate sep2 text_content)).isEmpty then none
       else some (List.intercalate sep2 text_content)) := by
  by_cases h : (pystrip (List.intercalate sep2 text_content)).isEmpty
  · simp [extract_text_from_pdf, h]
  · simp [extract_text_from_pdf, h, ite_self]

/-- C5: whenever `process_file` produces a record, its `body` is the
original input chunks of the cleaned OCR text joined in order — determined
by the input text alone, not by any backend output — and its keyword
fields (with title and publication date) are exactly the structured object
returned for the last processed chunk. -/
theorem process_file_spec (filename ocr_text : List Char)
    (backend : Nat → List Char → Option Structured) (r : Enriched)
    (h : process_file filename ocr_text backend = some r) :
    r.body = List.intercalate sep2 (chunk_text (cleanText ocr_text) 8000 500) ∧
    ∃ lc sd,
      (chunk_text (cleanText ocr_text) 8000 500).getLast? = some lc ∧
      backend ((chunk_text (cleanText ocr_text) 8000 500).length - 1) lc =
        some sd ∧
      r.keywords = sd.keywords ∧ r.title = sd.title ∧
      r.publication_date = sd.publication_date ∧
      r.filetitle = stripTxt filename := by
  unfold process_file at h
  by_cases h1 : (pystrip ocr_text).isEmpty
  · rw [if_pos h1] at h
    exact absurd h (by simp)
  · rw [if_neg h1] at h
    by_cases h2 : (cleanText ocr_text).isEmpty
    · rw [if_pos h2] at h
      exact absurd h (by simp)
    · rw [if_neg h2] at h
      rcases hrc : runChunks backend 0 (chunk_text (cleanText ocr_text) 8000 500)
        with _ | sd
      · rw [hrc] at h
        exact absurd h (by simp)
      · rw [hrc] at h
        simp only [Option.map_some', Option.some.injEq] at h
        obtain ⟨lc, hlast, hback⟩ := runChunks_last backend _ 0 sd hrc
        refine ⟨by rw [← h], lc, sd, hlast, by simpa using hback,
          by rw [← h], by rw [← h], by rw [← h], by rw [← h]⟩

theorem process_file_spec_witness :
    exampleEnriched.body =
      List.intercalate sep2 (chunk_text (cleanText exampleOcrText) 8000 500) ∧
    ∃ lc sd,
      (chunk_text (cleanText exampleOcrText) 8000 500).getLast? = some lc ∧
      exampleBackend
        ((chunk_text (cleanText exampleOcrText) 8000 500).length - 1) lc =
        some sd ∧
      exampleEnriched.keywords = sd.keywords ∧
      exampleEnriched.title = sd.title ∧
      exampleEnriched.publication_date = sd.publication_date ∧
      exampleEnriched.filetitle = stripTxt "a.txt".toList :=
  process_file_spec "a.txt".toList exampleOcrText exampleBackend
    exampleEnriched (by decide)

/-- C6 counterexample: a malformed backend response with no braces at all —
`process_text_with_deepseek` returns `None` for it (the chunk fails, and
`process_file` aborts the file), instead of synthesizing the fallback
object as the claim states. -/
theorem parse_response_counterexample :
    extractBraced (pystrip "no json here".toList) = none ∧
    parse_deepseek_response (fun _ => none) "no json here".toList
      "f.txt".toList none none = none ∧
    parse_deepseek_response (fun _ => none) "no json here".toList
      "f.txt".toList none none ≠
      some (fallbackStructured "f.txt".toList none none) := by
  refine ⟨by decide, by decide, ?_⟩
  intro h
  exact absurd ((by decide : parse_deepseek_response (fun _ => none)
    "no json here".toList "f.txt".toList none none = none).symm.trans h)
    (by decide)

/-- C6 amended: when the response contains a `{` with a later `}`, the
substring from the first `{` to the last `}` is what gets decoded, and the
fallback object is synthesized exactly when decoding that substring fails;
but a response with no such brace pair yields `None` — the chunk aborts —
and a decoded object missing `filetitle`/`keywords` also yields `None`. -/
theorem parse_response_amended (jp : List Char → Option JsonDoc)
    (raw filename : List Char)
    (publication_date era_from_metadata : Option (List Char)) :
    (extractBraced (pystrip raw) = none →
      parse_deepseek_response jp raw filename publication_date
        era_from_metadata = none) ∧
    (∀ s, extractBraced (pystrip raw) = some s → jp s = none →
      parse_deepseek_response jp raw filename publication_date
        era_from_metadata =
        some (fallbackStructured filename publication_date era_from_metadata)) ∧
    (∀ s doc, extractBraced (pystrip raw) = some s → jp s = some doc →
      parse_deepseek_response jp raw filename publication_date
        era_from_metadata = normalizeDoc doc publication_date
          era_from_metadata) ∧
    (∀ s doc, extractBraced (pystrip raw) = some s → jp s = some doc →
      doc.filetitle = none ∨ doc.keywords = none →
      parse_deepseek_response jp raw filename publication_date
        era_from_metadata = none) := by
  refine ⟨?_, ?_, ?_, ?_⟩
  · intro hx
    unfold parse_deepseek_response
    rw [hx]
  · intro s hx hjp
    unfold parse_deepseek_response
    rw [hx]
    show (match jp s with
      | some doc => normalizeDoc doc publication_date era_from_metadata
      | none => some (fallbackStructured filename publication_date
          era_from_metadata)) = _
    rw [hjp]
  · intro s doc hx hjp
    unfold parse_deepseek_response
    rw [hx]
    show (match jp s with
      | some doc => normalizeDoc doc publication_date era_from_metadata
      | none => some (fallbackStructured filename publication_date
          era_from_metadata)) = _
    rw [hjp]
  · intro s doc hx hjp hmiss
    unfold parse_deepseek_response
    rw [hx]
    show (match jp s with
      | some doc => normalizeDoc doc publication_date era_from_metadata
      | none => some (fallbackStructured filename publication_date
          era_from_metadata)) = _
    rw [hjp]
    show normalizeDoc doc publication_date era_from_metadata = none
    unfold normalizeDoc
    rcases hft : doc.filetitle with _ | ft
    · rfl
    · rcases hkw : doc.keywords with _ | kw
      · rfl
      · rcases hmiss with hmiss | hmiss
        · rw [hft] at hmiss
          exact absurd hmiss (by simp)
        · rw [hkw] at hmiss
          exact absurd hmiss (by simp)

theorem parse_response_amended_witness :
    parse_deepseek_response (fun _ => none) "reply: {oops}".toList
      "g.txt".toList (some "1999".toList) (some "1990s".toList) =
      some (fallbackStructured "g.txt".toList (some "1999".toList)
        (some "1990s".toList)) :=
  (parse_response_amended (fun _ => none) "reply: {oops}".toList
      "g.txt".toList (some "1999".toList) (some "1990s".toList)).2.1
    "{oops}".toList (by decide) rfl

/-- C2 counterexample: `visited.add(url)`/`save_visited()` run at lines
183-184, before `save_metadata` (line 195) and `log_status` (line 196) —
so an exception in the status-log append leaves the url in the VisitedSet
with no log entry, and it is not retried. -/
theorem scrape_document_visited_counterexample :
    "u".toList ∈ (scrape_document ⟨[], []⟩ "u".toList pgSimple (fun _ => true)
      (some FailPoint.logStatusStep)).1.visited ∧
    HEvent.logStatus "u".toList ∉ (scrape_document ⟨[], []⟩ "u".toList
      pgSimple (fun _ => true) (some FailPoint.logStatusStep)).2 := by
  decide

lemma scrape_document_none_eq (st : HarvestState) (url : List Char)
    (pg : PageData) (dlOk : List Char → Bool)
    (h1 : url ∉ st.visited) (h2 : url ∉ st.unavailables)
    (h3 : pg.unavailable = false) :
    scrape_document st url pg dlOk none =
      ({ st with visited := url :: st.visited },
        HEvent.navigate url ::
          (pg.pdf_links.filter dlOk).map HEvent.download ++
          [HEvent.saveVisited, HEvent.saveMetadata pg.doc_id,
            HEvent.logStatus url]) := by
  simp [scrape_document, h1, h2, h3]

/-- C2 amended: the url is added to the VisitedSet after extraction and the
download loop but *before* the metadata-snapshot write and the status-log
append; an exception up to and including `save_visited` leaves the url
unvisited (retried), while an exception in `save_metadata` or `log_status`
leaves it visited (not retried).  In an exception-free run the save-visited
event precedes the metadata and log events. -/
theorem scrape_document_visited_amended (st : HarvestState) (url : List Char)
    (pg : PageData) (dlOk : List Char → Bool)
    (h1 : url ∉ st.visited) (h2 : url ∉ st.unavailables)
    (h3 : pg.unavailable = false) :
    (∀ fp ∈ [FailPoint.navigateStep, FailPoint.extractStep,
        FailPoint.saveVisitedStep],
      url ∉ (scrape_document st url pg dlOk (some fp)).1.visited) ∧
    (∀ fp ∈ [FailPoint.saveMetadataStep, FailPoint.logStatusStep],
      url ∈ (scrape_document st url pg dlOk (some fp)).1.visited ∧
        HEvent.logStatus url ∉ (scrape_document st url pg dlOk (some fp)).2) ∧
    url ∈ (scrape_document st url pg dlOk none).1.visited ∧
    (scrape_document st url pg dlOk none).2 =
      HEvent.navigate url ::
        (pg.pdf_links.filter dlOk).map HEvent.download ++
        [HEvent.saveVisited, HEvent.saveMetadata pg.doc_id,
          HEvent.logStatus url] := by
  refine ⟨?_, ?_, ?_, ?_⟩
  · intro fp hfp
    fin_cases hfp <;> simp [scrape_document, h1, h2, h3]
  · intro fp hfp
    fin_cases hfp <;>
      constructor <;>
      simp [scrape_document, h1, h2, h3, List.mem_map]
  · rw [scrape_document_none_eq st url pg dlOk h1 h2 h3]
    exact List.mem_cons_self url st.visited
  · rw [scrape_document_none_eq st url pg dlOk h1 h2 h3]

theorem scrape_document_visited_amended_witness :
    ("v".toList ∉ (scrape_document ⟨[], []⟩ "v".toList pgSimple
      (fun _ => true) (some FailPoint.navigateStep)).1.visited) ∧
    ("v".toList ∈ (scrape_document ⟨[], []⟩ "v".toList pgSimple
      (fun _ => true) (some FailPoint.saveMetadataStep)).1.visited) ∧
    "v".toList ∈ (scrape_document ⟨[], []⟩ "v".toList pgSimple
      (fun _ => true) none).1.visited :=
  have h := scrape_document_visited_amended ⟨[], []⟩ "v".toList pgSimple
    (fun _ => true) (by decide) (by decide) (by decide)
  ⟨h.1 FailPoint.navigateStep (by decide),
   (h.2.1 FailPoint.saveMetadataStep (by decide)).1,
   h.2.2.1⟩

/-- C8: a url already in the VisitedSet or the UnavailableSet is skipped
before any navigation or effect, so a sweep over a fully
visited/unavailable url list leaves the state untouched and performs no
download, write, or log append whatsoever (empty event trace). -/
theorem scrape_documents_idempotent (st : HarvestState)
    (urls : List (List Char)) (pgOf : List Char → PageData)
    (dlOk : List Char → Bool) (failAt : List Char → Option FailPoint)
    (h : ∀ u ∈ urls, u ∈ st.visited ∨ u ∈ st.unavailables) :
    scrape_documents st urls pgOf dlOk failAt = (st, []) := by
  induction urls with
  | nil => rfl
  | cons u rest ih =>
    have hu := scrape_document_skips st u (pgOf u) dlOk (failAt u)
      (h u (by simp))
    have hrest : scrape_documents st rest pgOf dlOk failAt = (st, []) :=
      ih (fun v hv => h v (by simp [hv]))
    simp [scrape_documents, hu, hrest]

theorem scrape_documents_idempotent_witness :
    scrape_documents ⟨["a".toList, "b".toList], ["c".toList]⟩
      ["a".toList, "c".toList, "b".toList] (fun _ => pgSimple)
      (fun _ => true) (fun _ => none) =
      (⟨["a".toList, "b".toList], ["c".toList]⟩, []) :=
  scrape_documents_idempotent ⟨["a".toList, "b".toList], ["c".toList]⟩
    ["a".toList, "c".toList, "b".toList] (fun _ => pgSimple)
    (fun _ => true) (fun _ => none) (by decide)

/-- C3 counterexample: on the fixture page (root archive title, non-search
URL) `scrape_index_pages` takes the redirect branch (line 357: `"search/site"
not in current_url`) and *breaks*; the walk halts with the cursor still
`{"2012": 0}` — it is not advanced to `{"2012": 0, "2013": 0}`. -/
theorem frontier_rollover_counterexample :
    (walk env3 2 [(2012, 0)] 2012 0).1 = [(2012, 0)] ∧
    (walk env3 2 [(2012, 0)] 2012 0).2 =
      [WEvent.save 2012 0, WEvent.fetch 2012 0] ∧
    (walk env3 2 [(2012, 0)] 2012 0).1 ≠ [(2012, 0), (2013, 0)] := by
  decide

/-- C3 amended: when the navigation URL is still under `search/site` and
the page has no anchors but carries the root-archive marker (or satisfies
the root-title test), the walker advances to `(year+1, 0)` and continues,
and the progress map keeps the previous year's entry (from `{"2012": 0}` it
becomes `{"2012": 0, "2013": 0}`); but when the URL is no longer under the
search path — which is what the root-title-on-non-search-URL fixture
produces — `scrape_index_pages` stops the walk instead of advancing. -/
theorem frontier_rollover_amended :
    (∀ (env : Nat → Nat → FetchResult) (fuel : Nat)
        (prog : List (Nat × Nat)) (year page : Nat) (url title : List Char),
      env year page = FetchResult.pageData false url title [] true →
      isSubstring searchSiteMark url = true →
      walk env (fuel + 1) prog year page =
        ((walk env fuel (setProg (setProg prog year page) (year + 1) 0)
            (year + 1) 0).1,
          WEvent.save year page :: WEvent.fetch year page ::
            WEvent.save (year + 1) 0 ::
            (walk env fuel (setProg (setProg prog year page) (year + 1) 0)
              (year + 1) 0).2)) ∧
    (∀ (env : Nat → Nat → FetchResult) (fuel : Nat)
        (prog : List (Nat × Nat)) (year page : Nat) (url title : List Char)
        (anchors : List (List Char)) (marker : Bool),
      env year page = FetchResult.pageData false url title anchors marker →
      isSubstring searchSiteMark url = false →
      walk env (fuel + 1) prog year page =
        (setProg prog year page,
          [WEvent.save year page, WEvent.fetch year page])) ∧
    (∀ (prog : List (Nat × Nat)) (year page y' : Nat),
      y' ≠ year → y' ≠ year + 1 →
      getProg (setProg (setProg prog year page) (year + 1) 0) y' =
        getProg prog y') ∧
    setProg (setProg [(2012, 0)] 2012 0) 2013 0 = [(2012, 0), (2013, 0)] := by
  refine ⟨?_, ?_, ?_, by decide⟩
  · intro env fuel prog year page url title henv hred
    by_cases hroot : isSubstring rootTitle title = true ∧
      isSubstring searchMark (url.map Char.toLower) = false
    · exact walk_rollover_title env fuel prog year page url title [] true
        henv hred hroot.1 hroot.2
    · exact walk_rollover_marker env fuel prog year page url title
        henv hred hroot
  · intro env fuel prog year page url title anchors marker henv hred
    exact walk_redirect env fuel prog year page url title anchors marker
      henv hred
  · intro prog year page y' hy1 hy2
    rw [getProg_setProg_ne _ _ _ _ hy2, getProg_setProg_ne _ _ _ _ hy1]

theorem frontier_rollover_amended_witness :
    walk env4 1 [(2012, 0)] 2012 0 =
      ([(2012, 0), (2013, 0)],
        [WEvent.save 2012 0, WEvent.fetch 2012 0, WEvent.save 2013 0]) :=
  have h := frontier_rollover_amended.1 env4 0 [(2012, 0)] 2012 0
    "https://www.cia.gov/readingroom/search/site?page=0".toList rootTitle
    (by decide) (by decide)
  h.trans (by decide)

/-- C4 counterexample: the legacy walker (collect_articles.py) writes
`last_page` only *after* processing a page (`save_last_page(page_num + 1)`,
line 172): its trace opens with a fetch that no persist precedes, and the
only save events sit after fetches. -/
theorem cursor_persist_counterexample :
    (legacyWalk envLegacy 2012 2 0 0).2.head? =
      some (WEvent.fetch 2012 0) ∧
    fetchOk (legacyWalk envLegacy 2012 2 0 0).2 = false ∧
    WEvent.save 2012 1 ∈ (legacyWalk envLegacy 2012 2 0 0).2 := by
  decide

/-- C4 amended: the continuation walker (collect_articles_continuation.py)
persists the cursor immediately before every listing-page fetch; the legacy
walker (collect_articles.py) persists `last_page = page + 1` only after a
page has been fetched and processed, so every one of its runs opens with an
unpersisted fetch. -/
theorem cursor_persisted_before_fetch :
    (∀ (env : Nat → Nat → FetchResult) (fuel : Nat)
        (prog : List (Nat × Nat)) (year page : Nat),
      fetchOk (walk env fuel prog year page).2 = true) ∧
    (∀ (env : Nat → FetchResult) (year count page saved : Nat),
      (legacyWalk env year (count + 1) page saved).2.head? =
        some (WEvent.fetch year page)) := by
  constructor
  · intro env fuel prog year page
    exact (walk_fetchOk_aux env fuel prog year page).1
  · intro env year count page saved
    rw [legacyWalk]
    rcases env page with _ | ⟨u, url2, t, anchors, m⟩
    · rfl
    · by_cases ha : anchors.isEmpty = true
      · simp [ha]
      · simp [ha]

/-- C9: after the backfill pass, every scanned text file with readable
non-blank content has ledger status `completed` — whether it previously had
no entry or a non-completed one — and every key belonging to none of the
scanned files keeps its exact previous entry.  The pass only rewrites the
ledger; no extraction step appears in it. -/
theorem backpropagate_spec (txt_files : List TxtFile)
    (progress : List (List Char × OcrEntry)) :
    (∀ f ∈ txt_files, ∀ c, f.content = some c →
      (pystrip c).isEmpty = false →
      ∃ e, getKey (backpropagate_completed_files txt_files progress)
        f.pdfName = some e ∧ e.status = completedStatus) ∧
    (∀ k, (∀ f ∈ txt_files, f.pdfName ≠ k) →
      getKey (backpropagate_completed_files txt_files progress) k =
        getKey progress k) := by
  constructor
  · intro f hf c hc hne
    exact backprop_completes txt_files progress f hf c hc hne
  · intro k hk
    exact backprop_untouched txt_files progress k hk

theorem backpropagate_spec_witness :
    (∃ e, getKey (backpropagate_completed_files
        [⟨"a.pdf".toList, some "hello".toList⟩]
        [("a.pdf".toList, ⟨"failed".toList, some "e".toList⟩)])
      "a.pdf".toList = some e ∧ e.status = completedStatus) ∧
    getKey (backpropagate_completed_files
        [⟨"a.pdf".toList, some "hello".toList⟩]
        [("a.pdf".toList, ⟨"failed".toList, some "e".toList⟩)])
      "b.pdf".toList =
      getKey [("a.pdf".toList, ⟨"failed".toList, some "e".toList⟩)]
        "b.pdf".toList :=
  have h := backpropagate_spec [⟨"a.pdf".toList, some "hello".toList⟩]
    [("a.pdf".toList, ⟨"failed".toList, some "e".toList⟩)]
  ⟨h.1 ⟨"a.pdf".toList, some "hello".toList⟩ (by decide) "hello".toList rfl
    (by decide),
   h.2 "b.pdf".toList (by decide)⟩

end Funes
